import Mathlib

/-!
Verification of the release state machine in `release.py` (rust-release-tools).

Text is modelled as `List Char` (Python `str`).  The regular expressions of
the source are small and deterministic, so each is embedded as an explicit
character scanner:

* `matchKeyValue key` embeds `key\s*=\s*"([^"]+)"` (used by
  `update_cargo_files`, whose pattern is `(?m)^(version\s*=\s*")([^"]+)(")`
  with `count=1`, and as the core of `read_package_info`'s anchored search);
* `findVersionMatch` embeds the `(?m)` left-to-right scan of `re.subn`:
  a match may start only at the beginning of the text or right after `'\n'`;
* `searchKeyLine` embeds `re.search(r'(?m)^\s*key\s*=\s*"([^"]+)"\s*$', ...)`
  from `read_package_info`;
* `splitDots` embeds Python `str.split(".")` (keeps empty components);
* `parseReleaseCommit` embeds `re.match(r"^release v(\d+\.\d+\.\d+)$", ...)`
  on the (already stripped) last commit message.

`\s` is modelled by the six ASCII whitespace characters Python's `re` accepts
for ASCII text, and `isdigit` by the ASCII digits (version strings contain
only ASCII).  External effects (git, cargo, the editor) are recorded as an
event trace; outcomes of external commands that the script merely observes
(branch name, worktree status, tag existence, publish exit status, the user's
confirmation) are inputs in an `Env` record.
-/

/-- Error outcomes of the script.  The source reports each by a distinct
message on stderr followed by `sys.exit(1)`; the constructor names follow
the spec's taxonomy. -/
inductive Err where
  | wrongBranch
  | dirtyWorktree
  | metadataParseError
  | invalidFormat
  | unknownBump
  | tagAlreadyExists
  | writeFailed
  | noChangesProduced
  | userAborted
  | notAReleaseCommit
  | versionMismatch
  | publishFailed
  | usageError
  deriving DecidableEq, Repr

/-- Outcome of the external `cargo publish` subprocess.  The registry may
succeed, reject because the version already exists, or fail otherwise
(network, validation).  The script itself only observes the exit status. -/
inductive PublishResult where
  | ok
  | duplicateVersion
  | otherFailure
  deriving DecidableEq, Repr

/-- Externally observable commands issued by the script, in order.
`checkBranch` and `checkClean` are the two pure precondition queries; every
other event mutates files, the repository, or the registry. -/
inductive Event where
  | checkBranch
  | checkClean
  | writeManifest (newText : List Char)
  | cargoCheck
  | changelogGen (tagLabel : List Char)
  | editorOpen
  | gitAdd
  | gitCommit (msg : List Char)
  | cargoPublish
  | gitTag (name : List Char)
  | gitPush
  | gitPushTags
  deriving DecidableEq, Repr

/-- An event is a mutation unless it is one of the two precondition
queries. -/
def isMutation : Event → Bool
  | Event.checkBranch => false
  | Event.checkClean => false
  | _ => true

/-- The repository / environment state observed by one invocation. -/
structure Env where
  branch : List Char
  statusDirty : Bool
  manifest : List Char
  tagExists : List Char → Bool
  lastCommitMsg : List Char
  stagedNonEmpty : Bool
  userConfirms : Bool
  publishResult : PublishResult

/-- Parsed command-line arguments: optional bump kind, `--dry-run`,
`--continue`. -/
structure Args where
  bump : Option String
  dryRun : Bool
  continueFlag : Bool

/-- The six characters Python's `\s` matches on ASCII text. -/
def isPySpace (c : Char) : Bool :=
  c = ' ' || c = '\t' || c = '\n' || c = '\r' || c = '\x0b' || c = '\x0c'

/-- Strip an exact prefix, returning the rest on success. -/
def stripPfx : List Char → List Char → Option (List Char)
  | [], s => some s
  | _ :: _, [] => none
  | p :: ps, c :: cs => if p = c then stripPfx ps cs else none

/-- Scanner for `key\s*=\s*"([^"]+)"` at the start of `s`.  On success
returns `(g1, v, rest)` where `g1` is everything up to and including the
opening quote, `v` the (nonempty, quote-free) captured value, and `rest`
what follows the closing quote; `s = g1 ++ v ++ '"' :: rest`.  The pattern
is deterministic: each greedy `\s*` / `[^"]+` is followed by a literal its
class excludes, so backtracking never changes the match. -/
def matchKeyValue (key s : List Char) : Option (List Char × List Char × List Char) :=
  match stripPfx key s with
  | none => none
  | some r1 =>
    let ws1 := r1.takeWhile isPySpace
    match r1.dropWhile isPySpace with
    | '=' :: r3 =>
      let ws2 := r3.takeWhile isPySpace
      match r3.dropWhile isPySpace with
      | '"' :: r5 =>
        let v := r5.takeWhile (fun c => c ≠ '"')
        match r5.dropWhile (fun c => c ≠ '"') with
        | '"' :: rest =>
          if v.isEmpty then none
          else some (key ++ ws1 ++ '=' :: ws2 ++ ['"'], v, rest)
        | _ => none
      | _ => none
    | _ => none

/-- The literal key `version`. -/
def versionKey : List Char := ['v', 'e', 'r', 's', 'i', 'o', 'n']

/-- The literal key `name`. -/
def nameKey : List Char := ['n', 'a', 'm', 'e']

/-- Left-to-right scan of `re.subn(r'(?m)^(version\s*=\s*")([^"]+)(")', ...)`:
try `matchKeyValue versionKey` at every position that is a line start
(`atStart` tracks whether the current position is offset 0 or preceded by
`'\n'`).  Returns the first match as `(pre, g1, v, rest)` with
`s = pre ++ g1 ++ v ++ '"' :: rest`. -/
def findVersionMatch : Bool → List Char →
    Option (List Char × List Char × List Char × List Char)
  | _, [] => none
  | atStart, c :: cs =>
    match (if atStart then matchKeyValue versionKey (c :: cs) else none) with
    | some (g1, v, rest) => some ([], g1, v, rest)
    | none =>
      (findVersionMatch (c = '\n') cs).map fun x => (c :: x.1, x.2.1, x.2.2.1, x.2.2.2)

/-- What `update_cargo_files` did to the manifest: nothing (text unchanged,
no write, no `cargo check`), or wrote the new text (followed by the
`cargo check` lock refresh). -/
inductive UpdateEffect where
  | noChange
  | wrote (newText : List Char)
  deriving DecidableEq, Repr

/-- Events emitted by `update_cargo_files` for a given effect: a write is
followed by the `cargo check` dependency-lock refresh; no change emits
nothing. -/
def updateEvents : UpdateEffect → List Event
  | UpdateEffect.noChange => []
  | UpdateEffect.wrote t => [Event.writeManifest t, Event.cargoCheck]

/-- `update_cargo_files` (release.py lines 116-133): substitute the first
`(?m)^version\s*=\s*"..."` match.  `replaced != 1` aborts with the
`failed to update Cargo.toml` error; an unchanged result skips the write
and the `cargo check`. -/
def update_cargo_files (text newv : List Char) : Except Err UpdateEffect :=
  match findVersionMatch true text with
  | none => Except.error Err.writeFailed
  | some (pre, g1, _old, rest) =>
    let newText := pre ++ g1 ++ newv ++ '"' :: rest
    if newText = text then Except.ok UpdateEffect.noChange
    else Except.ok (UpdateEffect.wrote newText)

/-- Scanner for `re.search(r'(?m)^\s*key\s*=\s*"([^"]+)"\s*$', text)`:
at a line start, skip `\s*`, match the key/value, then require `\s*$`
(the rest of the line after the closing quote is whitespace; `$` also
matches before an embedded `'\n'` inside the whitespace run, or at the end
of the text). -/
def matchAnchoredKey (key s : List Char) : Option (List Char) :=
  match matchKeyValue key (s.dropWhile isPySpace) with
  | some (_, v, rest) =>
    if ('\n' ∈ rest.takeWhile isPySpace) || rest.dropWhile isPySpace = [] then
      some v
    else none
  | none => none

/-- Scan the text for the first `(?m)^\s*key\s*=\s*"([^"]+)"\s*$` match and
return the captured value. -/
def searchKeyLine (key : List Char) : Bool → List Char → Option (List Char)
  | _, [] => none
  | atStart, c :: cs =>
    match (if atStart then matchAnchoredKey key (c :: cs) else none) with
    | some v => some v
    | none => searchKeyLine key (c = '\n') cs

/-- `read_package_info` (release.py lines 74-86): search the manifest for
the `name` and `version` fields; if either is missing, abort with the
`unable to extract package name/version` error. -/
def read_package_info (text : List Char) : Except Err (List Char × List Char) :=
  match searchKeyLine nameKey true text, searchKeyLine versionKey true text with
  | some n, some v => Except.ok (n, v)
  | _, _ => Except.error Err.metadataParseError

/-- Python `str.split(".")`: split at every `'.'`, keeping empty components;
never returns the empty list. -/
def splitDots : List Char → List (List Char)
  | [] => [[]]
  | c :: cs =>
    match splitDots cs with
    | [] => [[]]
    | p :: ps => if c = '.' then [] :: p :: ps else (c :: p) :: ps

/-- Inverse of `splitDots`: join components with `'.'`. -/
def joinDots : List (List Char) → List Char
  | [] => []
  | [p] => p
  | p :: ps => p ++ '.' :: joinDots ps

/-- Python `str.isdigit` for ASCII: nonempty and all digits. -/
def isPyDigitStr (p : List Char) : Bool :=
  !p.isEmpty && p.all Char.isDigit

/-- Python `int` on a digit string. -/
def natOfDigits (p : List Char) : Nat :=
  p.foldl (fun acc c => acc * 10 + (c.toNat - '0'.toNat)) 0

/-- Python `str` on a non-negative integer (decimal digits). -/
def natDigits (n : Nat) : List Char := Nat.toDigits 10 n

/-- The f-string `f"{major}.{minor}.{patch}"`. -/
def renderVersion (a b c : Nat) : List Char :=
  natDigits a ++ '.' :: natDigits b ++ '.' :: natDigits c

/-- A version string assembled from three components. -/
def versionString (p1 p2 p3 : List Char) : List Char :=
  p1 ++ '.' :: p2 ++ '.' :: p3

/-- The input is exactly three dot-separated non-negative integers. -/
def goodFormat (s : List Char) : Prop :=
  ∃ p1 p2 p3, isPyDigitStr p1 = true ∧ isPyDigitStr p2 = true ∧
    isPyDigitStr p3 = true ∧ s = versionString p1 p2 p3

/-- The executable form of the format check in `bump_version`:
`len(parts) == 3 and all(p.isdigit() for p in parts)`. -/
def goodFormatB (s : List Char) : Bool :=
  (splitDots s).length = 3 && (splitDots s).all isPyDigitStr

/-- `bump_version` (release.py lines 89-113): check the format, return the
input unchanged for `current`, otherwise increment the requested component
and re-render. -/
def bump_version (current : List Char) (bump : String) : Except Err (List Char) :=
  let parts := splitDots current
  if !(parts.length = 3 && parts.all isPyDigitStr) then Except.error Err.invalidFormat
  else if bump = "current" then Except.ok current
  else
    match parts with
    | [p1, p2, p3] =>
      let a := natOfDigits p1
      let b := natOfDigits p2
      let c := natOfDigits p3
      if bump = "patch" then Except.ok (renderVersion a b (c + 1))
      else if bump = "minor" then Except.ok (renderVersion a (b + 1) 0)
      else if bump = "major" then Except.ok (renderVersion (a + 1) 0 0)
      else Except.error Err.unknownBump
    | _ => Except.error Err.invalidFormat

/-- `re.match(r"^release v(\d+\.\d+\.\d+)$", msg)` on the stripped last
commit message; returns the captured version. -/
def parseReleaseCommit (msg : List Char) : Option (List Char) :=
  match stripPfx ['r', 'e', 'l', 'e', 'a', 's', 'e', ' ', 'v'] msg with
  | none => none
  | some r1 =>
    let d1 := r1.takeWhile Char.isDigit
    if d1.isEmpty then none
    else
      match r1.dropWhile Char.isDigit with
      | '.' :: r3 =>
        let d2 := r3.takeWhile Char.isDigit
        if d2.isEmpty then none
        else
          match r3.dropWhile Char.isDigit with
          | '.' :: r5 =>
            let d3 := r5.takeWhile Char.isDigit
            if d3.isEmpty then none
            else if r5.dropWhile Char.isDigit = [] then
              some (d1 ++ '.' :: d2 ++ '.' :: d3)
            else none
          | _ => none
      | _ => none

/-- The commit / tag message `f"release v{version}"`. -/
def releaseMsg (version : List Char) : List Char :=
  ['r', 'e', 'l', 'e', 'a', 's', 'e', ' ', 'v'] ++ version

/-- `continue_release` (release.py lines 155-196): parse the last commit
message, re-read the manifest, require the versions to agree, probe the tag,
then publish; on publish success create the tag when absent and push the
branch and the tags.  `cargo publish` runs with `check=True`, so any
non-zero exit — the duplicate-version rejection included — raises and
terminates before the tag and push steps. -/
def continue_release (env : Env) : List Event × Option Err :=
  match parseReleaseCommit env.lastCommitMsg with
  | none => ([], some Err.notAReleaseCommit)
  | some version =>
    match read_package_info env.manifest with
    | Except.error e => ([], some e)
    | Except.ok (_name, cargoVersion) =>
      if cargoVersion ≠ version then ([], some Err.versionMismatch)
      else
        match env.publishResult with
        | PublishResult.ok =>
          (Event.cargoPublish ::
            ((if env.tagExists ('v' :: version) then [] else [Event.gitTag ('v' :: version)]) ++
              [Event.gitPush, Event.gitPushTags]), none)
        | _ => ([Event.cargoPublish], some Err.publishFailed)

/-- `main` (release.py lines 199-287).  `ensure_main_branch` runs before the
`--continue` dispatch; `ensure_clean_worktree` runs only on the fresh path.
The fresh path then reads the manifest, bumps the version, guards on the
tag, updates the manifest (and lock), generates the changelog, requires a
non-empty diff, stops after staging on `--dry-run`, opens the editor,
requires confirmation, commits, publishes, tags and pushes. -/
def mainModel (args : Args) (env : Env) : List Event × Option Err :=
  let e0 := [Event.checkBranch]
  if env.branch ≠ ['m', 'a', 'i', 'n'] then (e0, some Err.wrongBranch)
  else if args.continueFlag then
    if args.bump.isSome then (e0, some Err.usageError)
    else
      let r := continue_release env
      (e0 ++ r.1, r.2)
  else
    match args.bump with
    | none => (e0, some Err.usageError)
    | some b =>
      let e1 := e0 ++ [Event.checkClean]
      if env.statusDirty then (e1, some Err.dirtyWorktree)
      else
        match read_package_info env.manifest with
        | Except.error e => (e1, some e)
        | Except.ok (_name, currentVersion) =>
          match bump_version currentVersion b with
          | Except.error e => (e1, some e)
          | Except.ok newVersion =>
            if env.tagExists ('v' :: newVersion) then (e1, some Err.tagAlreadyExists)
            else
              match update_cargo_files env.manifest newVersion with
              | Except.error e => (e1, some e)
              | Except.ok eff =>
                let e3 := e1 ++ updateEvents eff ++ [Event.changelogGen ('v' :: newVersion)]
                if !env.stagedNonEmpty then (e3, some Err.noChangesProduced)
                else if args.dryRun then (e3, none)
                else
                  let e4 := e3 ++ [Event.editorOpen]
                  if !env.userConfirms then (e4, some Err.userAborted)
                  else
                    let e5 := e4 ++ [Event.gitAdd, Event.gitCommit (releaseMsg newVersion)]
                    match env.publishResult with
                    | PublishResult.ok =>
                      (e5 ++ [Event.cargoPublish, Event.gitTag ('v' :: newVersion),
                        Event.gitPush, Event.gitPushTags], none)
                    | _ => (e5 ++ [Event.cargoPublish], some Err.publishFailed)

/-- A position right after `p` is a line start for the `(?m)^` anchor:
either `p` is empty and the scan began at a line start (`b`), or `p` ends
with a newline. -/
def lineStartOK (b : Bool) (p : List Char) : Prop :=
  if p = [] then b = true else p.getLast? = some '\n'

/-- The manifest text contains a line of the exact shape
`version = "<old>"`: it decomposes as a prefix ending at a line boundary,
the literal `version = "`, a nonempty quote-free value, the closing quote,
and a remainder beginning at a line end. -/
def containsVersionLine (text old : List Char) : Prop :=
  ∃ pre rest, (pre = [] ∨ pre.getLast? = some '\n') ∧ (rest = [] ∨ rest.head? = some '\n') ∧
    old ≠ [] ∧ (∀ c ∈ old, c ≠ '"') ∧
    text = pre ++ (versionKey ++ ' ' :: '=' :: ' ' :: '"' :: (old ++ '"' :: rest))

/-- The branch name `main`. -/
def mainBranchName : List Char := ['m', 'a', 'i', 'n']

/-- A healthy repository mid-release: last commit `release v2.0.0`,
manifest version `2.0.0`, tag absent, registry publish succeeding. -/
def baseEnv : Env where
  branch := mainBranchName
  statusDirty := false
  manifest := ("name = \"foo\"\nversion = \"2.0.0\"\n").data
  tagExists := fun _ => false
  lastCommitMsg := ("release v2.0.0").data
  stagedNonEmpty := true
  userConfirms := true
  publishResult := PublishResult.ok

/-- The `--continue` invocation: no bump argument. -/
def contArgs : Args where
  bump := none
  dryRun := false
  continueFlag := true

/-- A fresh `patch` release invocation. -/
def freshArgs : Args where
  bump := some "patch"
  dryRun := false
  continueFlag := false

/-- A one-line manifest whose version field starts the line. -/
def vlineText : List Char := ("version = \"1.2.3\"\n").data

/-- A manifest whose only version field has leading whitespace: the read
pattern (`^\s*version...`) accepts it, the write pattern (`^version...`)
does not. -/
def indentedManifest : List Char := ("name = \"foo\"\n  version = \"1.2.3\"\n").data

/-- The continuation environment on a non-`main` branch. -/
def devEnv : Env := { baseEnv with branch := ['d', 'e', 'v'] }

/-- The continuation environment whose publish is rejected because the
version already exists on the registry. -/
def dupEnv : Env := { baseEnv with publishResult := PublishResult.duplicateVersion }

/-- The continuation environment in which tag `v2.0.0` already exists. -/
def tagEnv : Env := { baseEnv with tagExists := fun _ => true }

/-- The fresh-release environment with a dirty working tree. -/
def dirtyEnv : Env := { baseEnv with statusDirty := true }

/-- The continuation environment whose last commit is `fix bug`. -/
def fixBugEnv : Env :=
  { baseEnv with lastCommitMsg := ['f', 'i', 'x', ' ', 'b', 'u', 'g'] }

/-! ### Helper lemmas: prefix stripping and `takeWhile`/`dropWhile` -/

theorem stripPfx_sound : ∀ (p s r : List Char), stripPfx p s = some r → s = p ++ r
  | [], s, r, h => by simpa [stripPfx] using h
  | p :: ps, [], r, h => by simp [stripPfx] at h
  | p :: ps, c :: cs, r, h => by
    by_cases hc : p = c
    · subst hc
      simp only [stripPfx, if_pos rfl] at h
      simpa using stripPfx_sound ps cs r h
    · simp [stripPfx, hc] at h

theorem stripPfx_complete : ∀ (p r : List Char), stripPfx p (p ++ r) = some r
  | [], r => rfl
  | p :: ps, r => by simp [stripPfx, stripPfx_complete ps r]

theorem takeWhile_app {p : Char → Bool} :
    ∀ (l1 : List Char) (a : Char) (l2 : List Char), (∀ c ∈ l1, p c = true) → p a = false →
      (l1 ++ a :: l2).takeWhile p = l1
  | [], a, l2, _, ha => by simp [List.takeWhile, ha]
  | c :: cs, a, l2, h, ha => by
    have hc : p c = true := h c (by simp)
    simp only [List.cons_append, List.takeWhile_cons, hc]
    simp [takeWhile_app cs a l2 (fun x hx => h x (by simp [hx])) ha]

theorem dropWhile_app {p : Char → Bool} :
    ∀ (l1 : List Char) (a : Char) (l2 : List Char), (∀ c ∈ l1, p c = true) → p a = false →
      (l1 ++ a :: l2).dropWhile p = a :: l2
  | [], a, l2, _, ha => by simp [List.dropWhile, ha]
  | c :: cs, a, l2, h, ha => by
    have hc : p c = true := h c (by simp)
    simp only [List.cons_append, List.dropWhile_cons, hc]
    simp [dropWhile_app cs a l2 (fun x hx => h x (by simp [hx])) ha]

/-! ### Scanner soundness, first-match minimality, completeness -/

theorem matchKeyValue_sound {key s g1 v rest : List Char}
    (h : matchKeyValue key s = some (g1, v, rest)) :
    s = g1 ++ v ++ '"' :: rest ∧ v ≠ [] ∧ ∀ c ∈ v, c ≠ '"' := by
  unfold matchKeyValue at h
  split at h
  · exact absurd h (by simp)
  next r1 hstrip =>
    split at h
    case h_2 => exact absurd h (by simp)
    next r3 hdrop1 =>
      split at h
      case h_2 => exact absurd h (by simp)
      next r5 hdrop2 =>
        split at h
        case h_2 => exact absurd h (by simp)
        next rest0 hdrop3 =>
          dsimp only at h
          split at h
          · exact absurd h (by simp)
          next hne =>
            injection h with h'
            have hg1 : g1 = key ++ List.takeWhile isPySpace r1 ++ '=' :: List.takeWhile isPySpace r3 ++ ['"'] :=
              (congrArg Prod.fst h').symm
            have hv : v = List.takeWhile (fun c => decide (c ≠ '"')) r5 :=
              (congrArg (fun x => x.2.1) h').symm
            have hrest : rest = rest0 := (congrArg (fun x => x.2.2) h').symm
            have hs : s = key ++ r1 := stripPfx_sound key s r1 hstrip
            have hr1 : r1 = List.takeWhile isPySpace r1 ++ '=' :: r3 := by
              conv_lhs => rw [(List.takeWhile_append_dropWhile (p := isPySpace) (l := r1)).symm]
              rw [hdrop1]
            have hr3 : r3 = List.takeWhile isPySpace r3 ++ '"' :: r5 := by
              conv_lhs => rw [(List.takeWhile_append_dropWhile (p := isPySpace) (l := r3)).symm]
              rw [hdrop2]
            have hr5 : r5 = List.takeWhile (fun c => decide (c ≠ '"')) r5 ++ '"' :: rest0 := by
              conv_lhs => rw [(List.takeWhile_append_dropWhile (p := fun c => decide (c ≠ '"')) (l := r5)).symm]
              rw [hdrop3]
            refine ⟨?_, ?_, ?_⟩
            · subst hg1 hv hrest
              rw [hs]
              conv_lhs => rw [hr1]
              conv_lhs => rw [hr3]
              conv_lhs => rw [hr5]
              simp
            · subst hv
              simpa using hne
            · subst hv
              intro c hc
              have := List.mem_takeWhile_imp hc
              simpa using this

theorem matchKeyValue_complete (key v rest : List Char)
    (hv : v ≠ []) (hq : ∀ c ∈ v, c ≠ '"') :
    matchKeyValue key (key ++ ' ' :: '=' :: ' ' :: '"' :: (v ++ '"' :: rest)) =
      some (key ++ ' ' :: '=' :: ' ' :: ['"'], v, rest) := by
  unfold matchKeyValue
  rw [stripPfx_complete]
  have htw : List.takeWhile (fun c => decide (c ≠ '"')) (v ++ '"' :: rest) = v :=
    takeWhile_app v '"' rest (fun c hc => by simpa using hq c hc) (by simp)
  have hdw : List.dropWhile (fun c => decide (c ≠ '"')) (v ++ '"' :: rest) = '"' :: rest :=
    dropWhile_app v '"' rest (fun c hc => by simpa using hq c hc) (by simp)
  have e1 : List.dropWhile isPySpace (' ' :: '=' :: ' ' :: '"' :: (v ++ '"' :: rest)) =
      '=' :: (' ' :: '"' :: (v ++ '"' :: rest)) := rfl
  have e2 : List.takeWhile isPySpace (' ' :: '=' :: ' ' :: '"' :: (v ++ '"' :: rest)) =
      [' '] := rfl
  have e3 : List.dropWhile isPySpace (' ' :: '"' :: (v ++ '"' :: rest)) =
      '"' :: (v ++ '"' :: rest) := rfl
  have e4 : List.takeWhile isPySpace (' ' :: '"' :: (v ++ '"' :: rest)) = [' '] := rfl
  simp only [e1, e2, e3, e4, htw, hdw]
  simp [hv]

theorem findVersionMatch_sound : ∀ (b : Bool) (s pre g1 v rest : List Char),
    findVersionMatch b s = some (pre, g1, v, rest) → s = pre ++ g1 ++ v ++ '"' :: rest := by
  intro b s
  induction s generalizing b with
  | nil => intro pre g1 v rest h; simp [findVersionMatch] at h
  | cons c cs ih =>
    intro pre g1 v rest h
    rw [findVersionMatch] at h
    cases hm : (if b then matchKeyValue versionKey (c :: cs) else none) with
    | some t =>
      rw [hm] at h
      obtain ⟨g1', v', rest'⟩ := t
      have hbm : matchKeyValue versionKey (c :: cs) = some (g1', v', rest') := by
        cases b with
        | false => simp at hm
        | true => simpa using hm
      simp only [Option.some.injEq, Prod.mk.injEq] at h
      obtain ⟨h1, h2, h3, h4⟩ := h
      subst h1 h2 h3 h4
      simpa using (matchKeyValue_sound hbm).1
    | none =>
      rw [hm] at h
      cases hr : findVersionMatch (c = '\n') cs with
      | none => rw [hr] at h; simp at h
      | some x =>
        rw [hr] at h
        obtain ⟨p', g1', v', rest'⟩ := x
        simp only [Option.map_some', Option.some.injEq, Prod.mk.injEq] at h
        obtain ⟨h1, h2, h3, h4⟩ := h
        subst h1 h2 h3 h4
        have hcs := ih _ p' g1' v' rest' hr
        simp [hcs]

theorem findVersionMatch_first : ∀ (b : Bool) (s pre g1 v rest p2 g2 v2 r2 : List Char),
    findVersionMatch b s = some (pre, g1, v, rest) →
    s = p2 ++ g2 ++ v2 ++ '"' :: r2 →
    lineStartOK b p2 →
    matchKeyValue versionKey (g2 ++ v2 ++ '"' :: r2) = some (g2, v2, r2) →
    pre.length ≤ p2.length := by
  intro b s
  induction s generalizing b with
  | nil =>
    intro pre g1 v rest p2 g2 v2 r2 h hdec hls hm2
    simp [findVersionMatch] at h
  | cons c cs ih =>
    intro pre g1 v rest p2 g2 v2 r2 h hdec hls hm2
    rw [findVersionMatch] at h
    cases hm : (if b then matchKeyValue versionKey (c :: cs) else none) with
    | some t =>
      rw [hm] at h
      obtain ⟨g1', v', rest'⟩ := t
      simp only [Option.some.injEq, Prod.mk.injEq] at h
      obtain ⟨h1, _, _, _⟩ := h
      subst h1
      simp
    | none =>
      rw [hm] at h
      cases hr : findVersionMatch (c = '\n') cs with
      | none => rw [hr] at h; simp at h
      | some x =>
        rw [hr] at h
        obtain ⟨p', g1', v', rest'⟩ := x
        simp only [Option.map_some', Option.some.injEq, Prod.mk.injEq] at h
        obtain ⟨h1, h2, h3, h4⟩ := h
        subst h1 h2 h3 h4
        cases p2 with
        | nil =>
          exfalso
          have hb : b = true := by simpa [lineStartOK] using hls
          subst hb
          simp only [if_pos rfl] at hm
          rw [show c :: cs = g2 ++ v2 ++ '"' :: r2 by simpa using hdec] at hm
          rw [hm2] at hm
          exact Option.noConfusion hm
        | cons c2 p2' =>
          have hc : c2 = c ∧ cs = p2' ++ g2 ++ v2 ++ '"' :: r2 := by
            have := hdec
            simp only [List.cons_append, List.cons.injEq] at this
            exact ⟨this.1.symm, by simpa using this.2⟩
          obtain ⟨hc2, hcs⟩ := hc
          subst hc2
          have hls' : lineStartOK (c2 = '\n') p2' := by
            cases p2' with
            | nil =>
              have : c2 = '\n' := by simpa [lineStartOK] using hls
              simp [lineStartOK, this]
            | cons d p2'' =>
              have : (d :: p2'').getLast? = some '\n' := by
                simpa [lineStartOK, List.getLast?_cons_cons] using hls
              simpa [lineStartOK] using this
          have := ih (c2 = '\n') p' g1' v' rest' p2' g2 v2 r2 hr hcs hls' hm2
          simpa using Nat.succ_le_succ this

theorem findVersionMatch_complete : ∀ (b : Bool) (s p2 g2 v2 r2 : List Char),
    s = p2 ++ g2 ++ v2 ++ '"' :: r2 →
    lineStartOK b p2 →
    matchKeyValue versionKey (g2 ++ v2 ++ '"' :: r2) = some (g2, v2, r2) →
    (findVersionMatch b s).isSome = true := by
  intro b s
  induction s generalizing b with
  | nil =>
    intro p2 g2 v2 r2 hdec hls hm2
    exact absurd hdec.symm (by simp)
  | cons c cs ih =>
    intro p2 g2 v2 r2 hdec hls hm2
    rw [findVersionMatch]
    cases hm : (if b then matchKeyValue versionKey (c :: cs) else none) with
    | some t => simp
    | none =>
      cases p2 with
      | nil =>
        exfalso
        have hb : b = true := by simpa [lineStartOK] using hls
        subst hb
        simp only [if_pos rfl] at hm
        rw [show c :: cs = g2 ++ v2 ++ '"' :: r2 by simpa using hdec] at hm
        rw [hm2] at hm
        exact Option.noConfusion hm
      | cons c2 p2' =>
        have hc : c2 = c ∧ cs = p2' ++ g2 ++ v2 ++ '"' :: r2 := by
          have := hdec
          simp only [List.cons_append, List.cons.injEq] at this
          exact ⟨this.1.symm, by simpa using this.2⟩
        obtain ⟨hc2, hcs⟩ := hc
        subst hc2
        have hls' : lineStartOK (c2 = '\n') p2' := by
          cases p2' with
          | nil =>
            have : c2 = '\n' := by simpa [lineStartOK] using hls
            simp [lineStartOK, this]
          | cons d p2'' =>
            have : (d :: p2'').getLast? = some '\n' := by
              simpa [lineStartOK, List.getLast?_cons_cons] using hls
            simpa [lineStartOK] using this
        have := ih (c2 = '\n') p2' g2 v2 r2 hcs hls' hm2
        simp only [Option.isSome_map']
        exact this

theorem splitDots_ne_nil : ∀ s : List Char, splitDots s ≠ []
  | [] => by simp [splitDots]
  | c :: cs => by
    have := splitDots_ne_nil cs
    cases h : splitDots cs with
    | nil => exact absurd h this
    | cons p ps => by_cases hc : c = '.' <;> simp [splitDots, h, hc]

theorem splitDots_dot (s : List Char) : splitDots ('.' :: s) = [] :: splitDots s := by
  cases h : splitDots s with
  | nil => exact absurd h (splitDots_ne_nil s)
  | cons p ps => simp [splitDots, h]

theorem splitDots_append_nodot :
    ∀ (p s : List Char), (∀ c ∈ p, c ≠ '.') →
      splitDots (p ++ s) = (p ++ (splitDots s).headI) :: (splitDots s).tail
  | [], s, _ => by
    cases h : splitDots s with
    | nil => exact absurd h (splitDots_ne_nil s)
    | cons q qs => simp [h]
  | c :: p', s, h => by
    have hc : c ≠ '.' := h c (by simp)
    have ih := splitDots_append_nodot p' s (fun x hx => h x (by simp [hx]))
    cases hq : splitDots (p' ++ s) with
    | nil => exact absurd hq (splitDots_ne_nil _)
    | cons q qs =>
      have hq' : splitDots (p'.append s) = q :: qs := hq
      rw [hq] at ih
      simp only [List.cons_append, splitDots, hq', if_neg hc]
      simp only [List.cons.injEq] at ih
      simp [ih.1, ih.2]

theorem splitDots_versionString (p1 p2 p3 : List Char)
    (h1 : ∀ c ∈ p1, c ≠ '.') (h2 : ∀ c ∈ p2, c ≠ '.') (h3 : ∀ c ∈ p3, c ≠ '.') :
    splitDots (versionString p1 p2 p3) = [p1, p2, p3] := by
  have e3 : splitDots p3 = [p3] := by
    have := splitDots_append_nodot p3 [] h3
    simpa [splitDots] using this
  have e2 : splitDots (p2 ++ '.' :: p3) = p2 :: [p3] := by
    rw [splitDots_append_nodot p2 ('.' :: p3) h2, splitDots_dot, e3]
    simp
  rw [versionString, List.append_assoc, List.cons_append,
    splitDots_append_nodot p1 ('.' :: (p2 ++ '.' :: p3)) h1, splitDots_dot, e2]
  simp

theorem joinDots_splitDots : ∀ s : List Char, joinDots (splitDots s) = s
  | [] => rfl
  | c :: cs => by
    have ih := joinDots_splitDots cs
    cases h : splitDots cs with
    | nil => exact absurd h (splitDots_ne_nil cs)
    | cons p ps =>
      by_cases hc : c = '.'
      · subst hc
        rw [splitDots_dot, h]
        cases ps with
        | nil => simpa [joinDots, h] using ih
        | cons q qs => rw [h] at ih; simpa [joinDots] using ih
      · simp only [splitDots, h, if_neg hc]
        cases ps with
        | nil => rw [h] at ih; simpa [joinDots] using ih
        | cons q qs =>
          rw [h] at ih
          simp only [joinDots, List.cons_append]
          simpa [joinDots] using ih

theorem digits_no_dot {p : List Char} (h : isPyDigitStr p = true) : ∀ c ∈ p, c ≠ '.' := by
  intro c hc
  have hall : ∀ c ∈ p, c.isDigit = true := by
    simp only [isPyDigitStr, Bool.and_eq_true, List.all_eq_true] at h
    exact fun x hx => h.2 x hx
  intro hdot
  subst hdot
  simpa using hall _ hc

theorem goodFormat_iff (s : List Char) : goodFormat s ↔ goodFormatB s = true := by
  constructor
  · rintro ⟨p1, p2, p3, h1, h2, h3, rfl⟩
    rw [goodFormatB, splitDots_versionString p1 p2 p3
      (digits_no_dot h1) (digits_no_dot h2) (digits_no_dot h3)]
    simp [h1, h2, h3]
  · intro h
    rw [goodFormatB, Bool.and_eq_true, decide_eq_true_iff] at h
    obtain ⟨hlen, hall⟩ := h
    match hsp : splitDots s with
    | [p1, p2, p3] =>
      rw [hsp] at hall
      simp only [List.all_cons, List.all_nil, Bool.and_eq_true, Bool.and_true] at hall
      refine ⟨p1, p2, p3, hall.1, hall.2.1, hall.2.2, ?_⟩
      have := joinDots_splitDots s
      rw [hsp] at this
      simp only [joinDots] at this
      rw [versionString]
      rw [← this]
      simp
    | [] => rw [hsp] at hlen; simp at hlen
    | [a] => rw [hsp] at hlen; simp at hlen
    | [a, b] => rw [hsp] at hlen; simp at hlen
    | a :: b :: cc :: d :: t => rw [hsp] at hlen; simp at hlen

theorem contains_implies_found (text old : List Char) (h : containsVersionLine text old) :
    (findVersionMatch true text).isSome = true := by
  obtain ⟨pre, rest, hpre, _hrest, hne, hq, hdec⟩ := h
  have hm : matchKeyValue versionKey
      ((versionKey ++ ' ' :: '=' :: ' ' :: ['"']) ++ old ++ '"' :: rest)
      = some (versionKey ++ ' ' :: '=' :: ' ' :: ['"'], old, rest) := by
    have harg : (versionKey ++ ' ' :: '=' :: ' ' :: ['"']) ++ old ++ '"' :: rest
        = versionKey ++ ' ' :: '=' :: ' ' :: '"' :: (old ++ '"' :: rest) := by simp
    rw [harg]
    exact matchKeyValue_complete versionKey old rest hne hq
  refine findVersionMatch_complete true text pre
    (versionKey ++ ' ' :: '=' :: ' ' :: ['"']) old rest ?_ ?_ hm
  · rw [hdec]
    simp
  · cases pre with
    | nil => simp [lineStartOK]
    | cons a l =>
      have : (a :: l).getLast? = some '\n' := by
        cases hpre with
        | inl h0 => exact absurd h0 (by simp)
        | inr h0 => exact h0
      simp [lineStartOK, this]

theorem update_noChange_of_same (text newv pre g1 rest : List Char)
    (h : findVersionMatch true text = some (pre, g1, newv, rest)) :
    update_cargo_files text newv = Except.ok UpdateEffect.noChange := by
  have hs := findVersionMatch_sound true text pre g1 newv rest h
  rw [update_cargo_files, h]
  simp [hs]

theorem update_wrote_of_ne (text newv pre g1 old rest : List Char)
    (h : findVersionMatch true text = some (pre, g1, old, rest)) (hne : old ≠ newv) :
    update_cargo_files text newv
      = Except.ok (UpdateEffect.wrote (pre ++ g1 ++ newv ++ '"' :: rest)) := by
  have hs := findVersionMatch_sound true text pre g1 old rest h
  rw [update_cargo_files, h]
  have hnc : ¬ (pre ++ (g1 ++ (newv ++ '"' :: rest)) = text) := by
    rw [hs]
    intro hc
    apply hne
    have h1 : pre ++ (g1 ++ (newv ++ '"' :: rest)) = pre ++ (g1 ++ (old ++ '"' :: rest)) := by
      simpa using hc
    have h2 := List.append_cancel_left (List.append_cancel_left h1)
    have h4 : (newv ++ ['"']) ++ rest = (old ++ ['"']) ++ rest := by simpa using h2
    have h5 := List.append_cancel_right h4
    exact (List.append_cancel_right h5).symm
  simp [hnc]

theorem update_failed_of_none (text newv : List Char)
    (h : findVersionMatch true text = none) :
    update_cargo_files text newv = Except.error Err.writeFailed := by
  rw [update_cargo_files, h]

theorem continue_no_clean (env : Env) : Event.checkClean ∉ (continue_release env).1 := by
  rw [continue_release]
  cases parseReleaseCommit env.lastCommitMsg with
  | none => simp
  | some version =>
    cases read_package_info env.manifest with
    | error e => simp
    | ok nv =>
      obtain ⟨n, cv⟩ := nv
      by_cases hv : cv ≠ version
      · simp [hv]
      · cases env.publishResult <;>
          by_cases ht : env.tagExists ('v' :: version) = true <;>
          simp_all

theorem lineStartOK_of (p : List Char) (h : p = [] ∨ p.getLast? = some '\n') :
    lineStartOK true p := by
  cases p with
  | nil => simp [lineStartOK]
  | cons a l =>
    cases h with
    | inl h0 => exact absurd h0 (by simp)
    | inr h0 => simp [lineStartOK, h0]

/-! ### Claim theorems -/

/-- C1 counterexample: a continuation invocation (`--continue`) on branch
`dev`.  The branch check is performed — it is the first and only event —
and the run terminates with `WrongBranch` before `continue_release` is
reached, refuting the claim that neither precondition check is performed on
the continuation path (`ensure_main_branch` runs before the `--continue`
dispatch in `main`). -/
theorem c1_counterexample_branch_check_on_continue :
    mainModel contArgs devEnv = ([Event.checkBranch], some Err.wrongBranch) ∧
    contArgs.continueFlag = true :=
  ⟨rfl, rfl⟩

/-- C1 (amended): on a continuation invocation only the clean-worktree check
is skipped: `checkClean` never appears in the trace, while the branch check
is always performed first, before `continue_release` runs. -/
theorem c1_clean_check_skipped_on_continue (args : Args) (env : Env)
    (hc : args.continueFlag = true) :
    Event.checkClean ∉ (mainModel args env).1 ∧
    (mainModel args env).1.head? = some Event.checkBranch := by
  by_cases hbr : env.branch = ['m', 'a', 'i', 'n']
  · by_cases hb : args.bump.isSome
    · simp [mainModel, hbr, hc, hb]
    · have hnc := continue_no_clean env
      simp [mainModel, hbr, hc, hb]
      exact hnc
  · simp [mainModel, hbr]

/-- C1 witness: the amended theorem at the concrete continuation invocation
on a healthy repository. -/
theorem c1_witness :
    Event.checkClean ∉ (mainModel contArgs baseEnv).1 ∧
    (mainModel contArgs baseEnv).1.head? = some Event.checkBranch :=
  c1_clean_check_skipped_on_continue contArgs baseEnv rfl

/-- C2 counterexample: a continuation run in which the registry reports the
duplicate-version condition.  `continue_release` terminates with an error
after the publish attempt — the trace contains no tag and no push event —
refuting the claim that it proceeds to the tag and push steps. -/
theorem c2_counterexample_duplicate_publish_fatal :
    continue_release dupEnv = ([Event.cargoPublish], some Err.publishFailed) ∧
    dupEnv.publishResult = PublishResult.duplicateVersion :=
  ⟨rfl, rfl⟩

/-- C2 (amended): during continuation publish is always retried — the
`cargo publish` event is issued — but a publish failure of either kind,
the duplicate-version rejection included, is fatal: the subprocess runs
with `check=True`, so `continue_release` terminates with an error and the
tag and push steps are never reached. -/
theorem c2_publish_retried_but_any_failure_fatal (env : Env) (version name : List Char)
    (hmsg : parseReleaseCommit env.lastCommitMsg = some version)
    (hread : read_package_info env.manifest = Except.ok (name, version))
    (hpub : env.publishResult ≠ PublishResult.ok) :
    continue_release env = ([Event.cargoPublish], some Err.publishFailed) := by
  rw [continue_release, hmsg, hread]
  cases hp : env.publishResult with
  | ok => exact absurd hp hpub
  | duplicateVersion => simp
  | otherFailure => simp

/-- C2 witness: the amended theorem at the concrete duplicate-version
environment. -/
theorem c2_witness :
    continue_release dupEnv = ([Event.cargoPublish], some Err.publishFailed) :=
  c2_publish_retried_but_any_failure_fatal dupEnv
    ('2' :: '.' :: '0' :: '.' :: '0' :: []) ('f' :: 'o' :: 'o' :: []) rfl rfl (by decide)

/-- C3: for every well-formed version string `p1.p2.p3` (digit components)
encoding the triple `(a, b, c)`, `bump_version` returns `a.b.(c+1)` for
`patch`, `a.(b+1).0` for `minor`, `(a+1).0.0` for `major`, and the input
unchanged for `current`. -/
theorem c3_bump_version_valid_triples (p1 p2 p3 : List Char)
    (h1 : isPyDigitStr p1 = true) (h2 : isPyDigitStr p2 = true)
    (h3 : isPyDigitStr p3 = true) :
    bump_version (versionString p1 p2 p3) "patch"
        = Except.ok (renderVersion (natOfDigits p1) (natOfDigits p2) (natOfDigits p3 + 1)) ∧
    bump_version (versionString p1 p2 p3) "minor"
        = Except.ok (renderVersion (natOfDigits p1) (natOfDigits p2 + 1) 0) ∧
    bump_version (versionString p1 p2 p3) "major"
        = Except.ok (renderVersion (natOfDigits p1 + 1) 0 0) ∧
    bump_version (versionString p1 p2 p3) "current"
        = Except.ok (versionString p1 p2 p3) := by
  have hsp := splitDots_versionString p1 p2 p3
    (digits_no_dot h1) (digits_no_dot h2) (digits_no_dot h3)
  refine ⟨?_, ?_, ?_, ?_⟩ <;> simp [bump_version, hsp, h1, h2, h3]

/-- C3 witness: the theorem at the concrete version `1.2.3`. -/
theorem c3_witness :
    bump_version (versionString ['1'] ['2'] ['3']) "patch"
        = Except.ok (renderVersion (natOfDigits ['1']) (natOfDigits ['2']) (natOfDigits ['3'] + 1)) ∧
    bump_version (versionString ['1'] ['2'] ['3']) "minor"
        = Except.ok (renderVersion (natOfDigits ['1']) (natOfDigits ['2'] + 1) 0) ∧
    bump_version (versionString ['1'] ['2'] ['3']) "major"
        = Except.ok (renderVersion (natOfDigits ['1'] + 1) 0 0) ∧
    bump_version (versionString ['1'] ['2'] ['3']) "current"
        = Except.ok (versionString ['1'] ['2'] ['3']) :=
  c3_bump_version_valid_triples ['1'] ['2'] ['3'] rfl rfl rfl

/-- C4: continuation against a release commit whose version matches the
manifest resumes exactly the remaining steps in order: when the tag does not
exist — publish, create the tag, push the branch, push the tags; when the
tag already exists — publish and push, skipping tag creation. -/
theorem c4_continue_resumes_remaining_steps (env : Env) (version name : List Char)
    (hmsg : parseReleaseCommit env.lastCommitMsg = some version)
    (hread : read_package_info env.manifest = Except.ok (name, version))
    (hpub : env.publishResult = PublishResult.ok) :
    (env.tagExists ('v' :: version) = false →
      continue_release env = ([Event.cargoPublish, Event.gitTag ('v' :: version),
        Event.gitPush, Event.gitPushTags], none)) ∧
    (env.tagExists ('v' :: version) = true →
      continue_release env = ([Event.cargoPublish, Event.gitPush, Event.gitPushTags], none)) := by
  constructor
  · intro ht
    rw [continue_release, hmsg, hread]
    simp [hpub, ht]
  · intro ht
    rw [continue_release, hmsg, hread]
    simp [hpub, ht]

/-- C4 witness: the theorem at the concrete continuation environment where
tag `v2.0.0` does not yet exist. -/
theorem c4_witness :
    continue_release baseEnv
      = ([Event.cargoPublish, Event.gitTag ('v' :: ('2' :: '.' :: '0' :: '.' :: '0' :: [])),
          Event.gitPush, Event.gitPushTags], none) :=
  (c4_continue_resumes_remaining_steps baseEnv ('2' :: '.' :: '0' :: '.' :: '0' :: [])
    ('f' :: 'o' :: 'o' :: []) rfl rfl rfl).1 rfl

/-- C5: on the fresh path (branch check passed), a dirty working tree fails
with `DirtyWorktree`, and an already-existing tag `v<new>` fails with
`TagAlreadyExists`; in both cases the trace holds exactly the two
precondition queries, which are not mutations — no manifest, lock, or
changelog file has been touched. -/
theorem c5_fresh_preconditions_zero_mutation (args : Args) (env : Env) (b : String)
    (name cur newv : List Char)
    (hc : args.continueFlag = false) (hb : args.bump = some b)
    (hbr : env.branch = ['m', 'a', 'i', 'n']) :
    (env.statusDirty = true →
      mainModel args env = ([Event.checkBranch, Event.checkClean], some Err.dirtyWorktree)) ∧
    (env.statusDirty = false →
      read_package_info env.manifest = Except.ok (name, cur) →
      bump_version cur b = Except.ok newv →
      env.tagExists ('v' :: newv) = true →
      mainModel args env = ([Event.checkBranch, Event.checkClean], some Err.tagAlreadyExists)) ∧
    isMutation Event.checkBranch = false ∧ isMutation Event.checkClean = false := by
  refine ⟨?_, ?_, rfl, rfl⟩
  · intro hd
    simp [mainModel, hbr, hc, hb, hd]
  · intro hd hread hbump ht
    simp [mainModel, hbr, hc, hb, hd, hread, hbump, ht]

/-- C5 witness: the theorem's dirty-worktree case at a concrete fresh
invocation. -/
theorem c5_witness :
    mainModel freshArgs dirtyEnv
      = ([Event.checkBranch, Event.checkClean], some Err.dirtyWorktree) :=
  (c5_fresh_preconditions_zero_mutation freshArgs dirtyEnv "patch" [] [] []
    rfl rfl rfl).1 rfl

/-- C6: writing a new version into manifest text.  (a) Text containing a
line `version = "<old>"` is always matched.  (b) A successful substitution
decomposes the text as `pre ++ g1 ++ old ++ '"' :: rest` and produces
`pre ++ g1 ++ newv ++ '"' :: rest`: only the first matched version value
changes — `pre` is minimal among all line-start matches — and every byte
outside the value, in particular every other line, is identical.  (c) When
no line matches the write pattern the operation fails with `WriteFailed`. -/
theorem c6_write_version_first_match_only (text newv : List Char) :
    (∀ old, containsVersionLine text old → (findVersionMatch true text).isSome = true) ∧
    (∀ pre g1 old rest, findVersionMatch true text = some (pre, g1, old, rest) →
      text = pre ++ g1 ++ old ++ '"' :: rest ∧
      (∀ p2 g2 v2 r2, text = p2 ++ g2 ++ v2 ++ '"' :: r2 →
        (p2 = [] ∨ p2.getLast? = some '\n') →
        matchKeyValue versionKey (g2 ++ v2 ++ '"' :: r2) = some (g2, v2, r2) →
        pre.length ≤ p2.length) ∧
      (old ≠ newv →
        update_cargo_files text newv
          = Except.ok (UpdateEffect.wrote (pre ++ g1 ++ newv ++ '"' :: rest)))) ∧
    (findVersionMatch true text = none →
      update_cargo_files text newv = Except.error Err.writeFailed) := by
  refine ⟨fun old h => contains_implies_found text old h, ?_,
    fun h => update_failed_of_none text newv h⟩
  intro pre g1 old rest h
  refine ⟨findVersionMatch_sound true text pre g1 old rest h, ?_,
    fun hne => update_wrote_of_ne text newv pre g1 old rest h hne⟩
  intro p2 g2 v2 r2 hdec hls hm
  exact findVersionMatch_first true text pre g1 old rest p2 g2 v2 r2 h hdec
    (lineStartOK_of p2 hls) hm

/-- C6 witness: replacing `1.2.3` by `2.0.0` in a one-line manifest. -/
theorem c6_witness :
    update_cargo_files vlineText ('2' :: '.' :: '0' :: '.' :: '0' :: [])
      = Except.ok (UpdateEffect.wrote
          ([] ++ ("version = \"").data ++ ('2' :: '.' :: '0' :: '.' :: '0' :: []) ++ '"' :: ['\n'])) :=
  ((c6_write_version_first_match_only vlineText ('2' :: '.' :: '0' :: '.' :: '0' :: [])).2.1
    [] (("version = \"").data) (("1.2.3").data) ['\n'] (by decide)).2.2 (by decide)

/-- C7: when the new version equals the version currently in the manifest —
the value the write pattern matches, as happens with bump kind `current` —
the write operation reports `noChange`: the manifest is not rewritten and
the `cargo check` dependency-lock refresh is not triggered (`updateEvents`
for this outcome is empty), so manifest and lock file are left unchanged. -/
theorem c7_equal_version_no_write_no_refresh (text newv pre g1 rest : List Char)
    (h : findVersionMatch true text = some (pre, g1, newv, rest)) :
    update_cargo_files text newv = Except.ok UpdateEffect.noChange ∧
    updateEvents UpdateEffect.noChange = [] :=
  ⟨update_noChange_of_same text newv pre g1 rest h, rfl⟩

/-- C7 witness: rewriting `1.2.3` with `1.2.3` itself leaves the one-line
manifest untouched. -/
theorem c7_witness :
    update_cargo_files vlineText ('1' :: '.' :: '2' :: '.' :: '3' :: [])
      = Except.ok UpdateEffect.noChange ∧
    updateEvents UpdateEffect.noChange = [] :=
  c7_equal_version_no_write_no_refresh vlineText ('1' :: '.' :: '2' :: '.' :: '3' :: [])
    [] (("version = \"").data) ['\n'] (by decide)

/-- C8: for every input string that is not exactly three dot-separated
non-negative integers and every bump kind — `current` included, since the
format check precedes the early return — `bump_version` fails with
`InvalidFormat` and returns no version. -/
theorem c8_bump_version_invalid_format (s : List Char) (kind : String)
    (h : ¬ goodFormat s) :
    bump_version s kind = Except.error Err.invalidFormat := by
  have hb : goodFormatB s = false := by
    cases hq : goodFormatB s with
    | false => rfl
    | true => exact absurd ((goodFormat_iff s).mpr hq) h
  rw [goodFormatB] at hb
  simp [bump_version, hb]

/-- C8 witness: the theorem at the malformed input `1.2`. -/
theorem c8_witness :
    bump_version ['1', '.', '2'] "current" = Except.error Err.invalidFormat :=
  c8_bump_version_invalid_format ['1', '.', '2'] "current"
    (fun hg => absurd ((goodFormat_iff _).mp hg) (by decide))

/-- C9: when the most recent commit message does not match
`release vX.Y.Z` exactly, `continue_release` fails with `NotAReleaseCommit`
and its trace is empty — no publish, no tag creation, no push. -/
theorem c9_continue_rejects_non_release_commit (env : Env)
    (h : parseReleaseCommit env.lastCommitMsg = none) :
    continue_release env = ([], some Err.notAReleaseCommit) := by
  rw [continue_release, h]

/-- C9 witness: the theorem at the concrete last commit message `fix bug`. -/
theorem c9_witness :
    continue_release fixBugEnv = ([], some Err.notAReleaseCommit) :=
  c9_continue_rejects_non_release_commit fixBugEnv rfl

/-- C10: the manifest whose only version field has leading whitespace is
read successfully by `read_package_info` (its pattern `^\s*version...`
permits leading whitespace) and yields that version, yet
`update_cargo_files` (whose pattern `^version...` requires the line to
begin with `version`) fails with `WriteFailed` for every new version. -/
theorem c10_read_write_pattern_asymmetry :
    read_package_info indentedManifest = Except.ok (("foo").data, ("1.2.3").data) ∧
    ∀ newv, update_cargo_files indentedManifest newv = Except.error Err.writeFailed :=
  ⟨rfl, fun newv => update_failed_of_none indentedManifest newv (by decide)⟩
